import Mathlib

/-!
Shallow embedding of the playback core of zepto/musio:
`src/musio/player_util.py` (the `AudioPlayer` controller and its `_play_proc`
worker loop) and `src/musio/ffmpeg_file.py` (the `FFmpegFile` decoder).

Modelling conventions:
* bytes are `Nat` values; a PCM buffer is a `List Nat`; the zero byte is `0`;
* the ffmpeg native position units of `FFmpegFile` (based on `cur_dts`) are
  modelled as frame indices into the demuxed audio frame list `frames`;
* the multiprocessing `Manager` dict is a record; on the controller side the
  fields are `Option`-valued (`none` = key absent, `.getD` = `dict.get`);
* the duplex `Pipe` is a FIFO queue of messages plus a list of replies;
* a raised Python exception is an `Option`/`Except` `none`/`error` result.
  The `with` blocks of `_play_proc` do not suppress exceptions (the
  `__exit__` pattern of this repository, `return not bool(exc_type)`, is
  falsy while an exception is active), so an exception raised inside the
  feed loop skips the final `playing = False` assignment of line 279.
-/

namespace Musio

/-- A run of `n` zero bytes (the Python zero-byte filler buffers). -/
def zeros (n : Nat) : List Nat := List.replicate n 0

/-- State of `FFmpegFile` (src/musio/ffmpeg_file.py).  `frames` is the fixed
sequence of decoded audio frames of the opened stream (the ctypes demux,
decode and resample layer is opaque; each frame is the byte string that
`_resample` yields for one packet), `framePos` is the index of the next frame
`av_read_frame` returns, `_data` is the carry-over buffer `self._data`,
`_loops` and `_loop_count` are the loop budget and wrap counter inherited
from `io_base.AudioIO`, and `_seek_pos` is the pending seek (−1 = none). -/
structure FFmpegFile where
  frames : List (List Nat)
  framePos : Nat
  _data : List Nat
  _loops : Int
  _loop_count : Nat
  _seek_pos : Int
deriving DecidableEq

/-- `self._length` (ffmpeg_file.py line 70), the stream duration in native
units; in this model the native unit is one frame, so the length is the
frame count. -/
def FFmpegFile.length (f : FFmpegFile) : Int := f.frames.length

/-- `FFmpegFile._set_position` (ffmpeg_file.py lines 87–93): only record the
seek target; the seek itself is performed by the next `read`. -/
def FFmpegFile._set_position (f : FFmpegFile) (position : Int) : FFmpegFile :=
  { f with _seek_pos := position }

/-- `FFmpegFile._get_position` (ffmpeg_file.py lines 95–106): the current
stream position in native units (modelled as the index of the next frame). -/
def FFmpegFile.position (f : FFmpegFile) : Int := f.framePos

/-- Modelled from the spec: the `position` property setter of
`io_base.AudioIO` (io_base.py is not under src/).  Spec §4.2: seek the
Decoder to `v`, clamped to `[0, length]`; it delegates to `_set_position`. -/
def FFmpegFile.setPosition (f : FFmpegFile) (v : Int) : FFmpegFile :=
  f._set_position (max 0 (min v f.length))

/-- Modelled from the spec: `io_base.AudioIO.seek` (io_base.py is not under
src/) — "absolute seek in native units; seek(0) must return to the start for
looping" (spec §6), implemented as the clamped position setter. -/
def FFmpegFile.seek (f : FFmpegFile) (pos : Int) : FFmpegFile :=
  f.setPosition pos

/-- The frame-reading `while` loop inside `FFmpegFile.read` (ffmpeg_file.py
lines 266–338): while the accumulated `data` is empty or shorter than `size`,
demux the next frame and append its decoded bytes; at end of stream either
stop (loop budget exhausted: pad only a nonempty partial buffer, line 277)
or pad to `size`, count the wrap and seek back to the start (lines 280–285).
`fuel` bounds the recursion; `read` passes `frames.length - framePos + 1`,
which the loop never exhausts because every recursive call advances
`framePos`. -/
def readLoopF : Nat → FFmpegFile → Nat → List Nat → List Nat × FFmpegFile
  | 0, f, _, data => (data, f)
  | fuel + 1, f, size, data =>
    if data = [] ∨ data.length < size then
      match f.frames.drop f.framePos with
      | [] =>
        if f._loops ≠ -1 ∧ f._loops ≤ (f._loop_count : Int) then
          (if data.length ≠ 0 then data ++ zeros (size - data.length) else data, f)
        else
          (data ++ zeros (size - data.length),
            FFmpegFile.seek { f with _loop_count := f._loop_count + 1 } 0)
      | fr :: _ =>
        readLoopF fuel { f with framePos := f.framePos + 1 } size (data ++ fr)
    else
      (data, f)

/-- The pending-seek handling at the top of `FFmpegFile.read` (ffmpeg_file.py
lines 256–264): if a seek is pending, move the frame cursor there (clamped
into the stream, as `avformat_seek_file` is bounded by `[0, _length]`) and
clear the pending seek. -/
def seekApplied (f : FFmpegFile) : FFmpegFile :=
  if f._seek_pos > -1 then
    { f with framePos := min f._seek_pos.toNat f.frames.length, _seek_pos := -1 }
  else f

/-- `FFmpegFile.read` (ffmpeg_file.py lines 232–349): perform any pending
seek, run the frame loop, return exactly `size` bytes (or fewer at final end
of stream) and store the surplus in `_data`. -/
def FFmpegFile.read (f : FFmpegFile) (size : Nat) : List Nat × FFmpegFile :=
  let f1 := seekApplied f
  let r := readLoopF (f1.frames.length - f1.framePos + 1) f1 size f1._data
  (r.1.take size, { r.2 with _data := r.1.drop size })

/-- Modelled from the spec: `io_base.AudioIO.readline` (io_base.py is not
under src/) — "request one buffer-size unit of PCM from the Decoder" (spec
§4.1b); the nominal unit is the Output Sink buffer-size hint (spec §3). -/
def FFmpegFile.readline (f : FFmpegFile) (size : Nat) : List Nat × FFmpegFile :=
  f.read size

/-- A message on the command `Pipe`: the controller sends either a plain
string (get-type queries) or a single-key dict (set-type commands). -/
inductive Command where
  | str (s : String)
  | dict (key : String) (value : Int)
deriving DecidableEq

/-- Substring test on char lists (Python `needle in haystack` for `str`). -/
def strContainsAux (needle : List Char) : List Char → Bool
  | [] => needle.isEmpty
  | c :: rest => needle.isPrefixOf (c :: rest) || strContainsAux needle rest

def strContains (hay needle : String) : Bool :=
  strContainsAux needle.data hay.data

/-- Python `name in command` (player_util.py lines 267–275): substring
containment for a string message, key membership for a dict message. -/
def hasCmd (command : Command) (name : String) : Bool :=
  match command with
  | .str s => strContains s name
  | .dict k _ => k == name

/-- Command dispatch of `_play_proc` (player_util.py lines 262–276).  `none`
models a raised exception: indexing a plain string message with a string key
(`command[...]` on a `str`) is a TypeError.  The `loops` and `loop_count`
accessors of `io_base.AudioIO` (not under src/) are modelled from the spec
(§4.2): the getter replies with the configured budget `_loops`, the setter
replaces it, and `loop_count` replies with the wrap counter `_loop_count`. -/
def dispatch (fileobj : FFmpegFile) (command : Command) :
    Option (FFmpegFile × Option Int) :=
  if hasCmd command "getposition" then
    some (fileobj, some fileobj.position)
  else if hasCmd command "setposition" then
    match command with
    | .dict _ v => some (fileobj.setPosition v, none)
    | .str _ => none
  else if hasCmd command "getloops" then
    some (fileobj, some fileobj._loops)
  else if hasCmd command "setloops" then
    match command with
    | .dict _ v => some ({ fileobj with _loops := v }, none)
    | .str _ => none
  else if hasCmd command "getloopcount" then
    some (fileobj, some (fileobj._loop_count : Int))
  else
    some (fileobj, none)

/-- The message shapes the controller actually sends (spec §3). -/
def protocolCmd : Command → Bool
  | .str s => s == "getposition" || s == "getloops" || s == "getloopcount"
  | .dict k _ => k == "setposition" || k == "setloops"

/-- Pure sequential dispatch of a command list, collecting replies in order. -/
def dispatchRun (f : FFmpegFile) : List Command → FFmpegFile × List Int
  | [] => (f, [])
  | c :: rest =>
    match dispatch f c with
    | none => (f, [])
    | some fr =>
      let r := dispatchRun fr.1 rest
      (r.1, fr.2.toList ++ r.2)

/-- The Output Sink (the portaudio backend, outside src/).  Modelled from the
spec (§6): `write` accepts a PCM buffer and returns the byte count accepted;
`written` is the trace of accepted buffers.  Spec §7 allows a mid-stream
unrecoverable device error; `ok i` says whether the `i`-th write succeeds
(`none` = the write raised). -/
structure Device where
  buffer_size : Nat
  ok : Nat → Bool
  written : List (List Nat)

def Device.write (d : Device) (buf : List Nat) : Option (Nat × Device) :=
  if d.ok d.written.length then
    some (buf.length, { d with written := d.written ++ [buf] })
  else
    none

/-- The `playing` and `paused` fields of the shared dict as the worker reads
them (both keys are present once `open` and `play` have launched the
worker). -/
structure WorkerMsg where
  playing : Bool
  paused : Bool
deriving DecidableEq

/-- One worker execution state of `AudioPlayer._play_proc` (player_util.py
lines 194–279): the shared dict, the decoder, the device, the loop variable
`buf`, the pending command queue (worker end of the pipe), the replies sent
back, and the ghost trace `processed` of serviced commands. -/
structure WorkerState where
  msg : WorkerMsg
  fileobj : FFmpegFile
  device : Device
  buf : List Nat
  queue : List Command
  replies : List Int
  processed : List Command

/-- The loop guard of line 218. -/
def loopCond (s : WorkerState) : Bool :=
  s.msg.playing && (!s.buf.isEmpty || s.msg.paused)

/-- Lines 246–260: when not paused, read one nominal buffer, pad its tail
with zero bytes to `buffer_size` and write it; when paused, write a full
buffer of zero bytes.  (The position display of lines 219–244 only prints
and is not modelled.)  `none` models a device write error. -/
def feedAudio (s : WorkerState) : Option WorkerState :=
  if !s.msg.paused then
    let r := s.fileobj.readline s.device.buffer_size
    let buf_filler := zeros (s.device.buffer_size - r.1.length)
    match s.device.write (r.1 ++ buf_filler) with
    | some w => some { s with fileobj := r.2, buf := r.1, device := w.2 }
    | none => none
  else
    match s.device.write (zeros s.device.buffer_size) with
    | some w => some { s with device := w.2 }
    | none => none

/-- Lines 262–276: service at most one pending pipe message per iteration. -/
def pollCommand (s : WorkerState) : Option WorkerState :=
  match s.queue with
  | [] => some s
  | command :: rest =>
    match dispatch s.fileobj command with
    | none => none
    | some fr =>
      some { s with fileobj := fr.1, queue := rest,
                    replies := s.replies ++ fr.2.toList,
                    processed := s.processed ++ [command] }

/-- One iteration of the feed loop body. -/
def feedStep (s : WorkerState) : Option WorkerState :=
  (feedAudio s).bind pollCommand

inductive RunResult where
  | finished (s : WorkerState)
  | errored (s : WorkerState)
  | fuelOut (s : WorkerState)

/-- The feed loop of `_play_proc`, fuel-indexed.  On normal exit, line 279
sets `playing` to false; an exception inside the loop propagates through the
non-suppressing `with` blocks, so line 279 is skipped (`errored`). -/
def runFeed : Nat → WorkerState → RunResult
  | 0, s => .fuelOut s
  | fuel + 1, s =>
    if loopCond s then
      match feedStep s with
      | some s' => runFeed fuel s'
      | none => .errored s
    else
      .finished { s with msg := { s.msg with playing := false } }

def RunResult.state : RunResult → WorkerState
  | .finished s => s
  | .errored s => s
  | .fuelOut s => s

def RunResult.isFinished : RunResult → Bool
  | .finished _ => true
  | _ => false

def RunResult.isErrored : RunResult → Bool
  | .errored _ => true
  | _ => false

def RunResult.isFuelOut : RunResult → Bool
  | .fuelOut _ => true
  | _ => false

/-- A freshly opened `FFmpegFile` on a given stream with a given loop budget:
first frame next, empty carry-over, zero wraps, no pending seek. -/
def mkFile (frames : List (List Nat)) (loops : Int) : FFmpegFile :=
  { frames := frames, framePos := 0, _data := [], _loops := loops,
    _loop_count := 0, _seek_pos := -1 }

/-- An error-free Output Sink with nominal buffer size `n`. -/
def okDevice (n : Nat) : Device :=
  { buffer_size := n, ok := fun _ => true, written := [] }

/-- Worker state on entry to the feed loop (lines 210–215) for a worker that
is playing and not paused: `buf` initialised to one zero buffer (line 214). -/
def initWorker (frames : List (List Nat)) (loops : Int) (n : Nat) : WorkerState :=
  { msg := { playing := true, paused := false },
    fileobj := mkFile frames loops, device := okDevice n,
    buf := zeros n, queue := [], replies := [], processed := [] }

/-- Total number of PCM bytes in a list of frames. -/
def sumBytes (frames : List (List Nat)) : Nat := (frames.map List.length).sum

/-- The frame index the next `read` will start from, taking a pending seek
into account (the clamp mirrors `avformat_seek_file` staying inside the
stream). -/
def appliedPos (f : FFmpegFile) : Nat :=
  if f._seek_pos > -1 then min f._seek_pos.toNat f.frames.length else f.framePos

/-- Bytes left between the (seek-adjusted) read position and end of stream. -/
def remBytes (f : FFmpegFile) : Nat := sumBytes (f.frames.drop (appliedPos f))

/-- Termination potential of the frame-reading loop: carried bytes, bytes
left in the current pass, and one stream-plus-buffer worth of budget for every
remaining permitted pass. -/
def loopPotential (n : Nat) (f : FFmpegFile) (data : List Nat) : Nat :=
  data.length + remBytes f +
    (f._loops + 1 - (f._loop_count : Int)).toNat * (sumBytes f.frames + n)

/-- Termination potential of the whole decoder state between two reads. -/
def potential (n : Nat) (f : FFmpegFile) : Nat := loopPotential n f f._data

/-- Invariant of a worker run that is playing, never paused, receives no
commands, has an error-free device and a finite loop budget. -/
structure FiniteRunInv (n : Nat) (s : WorkerState) : Prop where
  hplay : s.msg.playing = true
  hpause : s.msg.paused = false
  hqueue : s.queue = []
  hok : ∀ i, s.device.ok i = true
  hbs : s.device.buffer_size = n
  hbuf : s.buf ≠ []
  hL : 0 ≤ s.fileobj._loops
  hlc : (s.fileobj._loop_count : Int) ≤ s.fileobj._loops
  hseek : s.fileobj._seek_pos = -1 ∨ s.fileobj._seek_pos = 0

/-- Invariant of a worker run that is playing, never paused, receives no
commands, has an error-free device and an infinite loop budget. -/
structure InfRunInv (n : Nat) (s : WorkerState) : Prop where
  hplay : s.msg.playing = true
  hpause : s.msg.paused = false
  hqueue : s.queue = []
  hok : ∀ i, s.device.ok i = true
  hbs : s.device.buffer_size = n
  hbuf : s.buf ≠ []
  hinf : s.fileobj._loops = -1

/-- Controller view of the shared dict: `Option` fields model key absence
(empty on a controller that was never opened). -/
structure CtrlMsg where
  playing : Option Bool
  paused : Option Bool
  length : Option Int
  filename : Option String
deriving DecidableEq

/-- The controller half of `AudioPlayer`: the shared dict and the trace of
messages sent on `_control_conn`. -/
structure AudioPlayer where
  _msg_dict : CtrlMsg
  sent : List Command
deriving DecidableEq

namespace AudioPlayer

/-- Property `playing` (lines 360–366): `msg_dict.get(playing, False)`. -/
def playing (self : AudioPlayer) : Bool := self._msg_dict.playing.getD false

/-- Property `paused` (lines 352–358). -/
def paused (self : AudioPlayer) : Bool := self._msg_dict.paused.getD false

/-- Property `length` (lines 368–374): `msg_dict.get(length, 0)`. -/
def length (self : AudioPlayer) : Int := self._msg_dict.length.getD 0

/-- `playing_wrapper` (lines 174–192): run `func` only while playing;
otherwise print a diagnostic built by dict-formatting the template
`"%(filename)s is not playing."` against the shared dict — which raises a
KeyError (modelled `Except.error`) when the `filename` key is absent — and
return `None`. -/
def playing_wrapper {α : Type} (func : AudioPlayer → α × AudioPlayer)
    (self : AudioPlayer) :
    Except String (Option α × AudioPlayer × List String) :=
  if !self.playing then
    match self._msg_dict.filename with
    | none => .error "KeyError: filename"
    | some fn => .ok (none, self, [fn ++ " is not playing."])
  else
    let r := func self
    .ok (some r.1, r.2, [])

/-- Property getter `position` (lines 376–384): send the string
`getposition`, then block on the reply (`reply` is the oracle for the value
received from the worker). -/
def position_get (self : AudioPlayer) (reply : Int) :
    Except String (Option Int × AudioPlayer × List String) :=
  playing_wrapper
    (fun c => (reply, { c with sent := c.sent ++ [Command.str "getposition"] }))
    self

/-- Property setter `position` (lines 386–393): send a setposition dict. -/
def position_set (self : AudioPlayer) (value : Int) :
    Except String (Option Unit × AudioPlayer × List String) :=
  playing_wrapper
    (fun c => ((), { c with sent := c.sent ++ [Command.dict "setposition" value] }))
    self

/-- Property getter `loops` (lines 395–403). -/
def loops_get (self : AudioPlayer) (reply : Int) :
    Except String (Option Int × AudioPlayer × List String) :=
  playing_wrapper
    (fun c => (reply, { c with sent := c.sent ++ [Command.str "getloops"] }))
    self

/-- Property setter `loops` (lines 405–412). -/
def loops_set (self : AudioPlayer) (value : Int) :
    Except String (Option Unit × AudioPlayer × List String) :=
  playing_wrapper
    (fun c => ((), { c with sent := c.sent ++ [Command.dict "setloops" value] }))
    self

/-- Property getter `loop_count` (lines 414–422). -/
def loop_count_get (self : AudioPlayer) (reply : Int) :
    Except String (Option Int × AudioPlayer × List String) :=
  playing_wrapper
    (fun c => (reply, { c with sent := c.sent ++ [Command.str "getloopcount"] }))
    self

def SEEK_SET : Nat := 0
def SEEK_CUR : Nat := 1
def SEEK_END : Nat := 2

/-- `seek(offset, whence)` (lines 424–437), wrapped: for `SEEK_CUR` read the
position (oracle `posReply`) and set `position + offset`; for `SEEK_END` set
`length - offset`; otherwise set `offset`; finally return `self.position`
(oracle `finalReply`).  The inner get and set calls are themselves wrapped
and pass because `playing` is true on this side of the guard. -/
def seek (self : AudioPlayer) (offset : Int) (whence : Nat)
    (posReply finalReply : Int) :
    Except String (Option Int × AudioPlayer × List String) :=
  playing_wrapper
    (fun c =>
      let c1 :=
        if whence = SEEK_CUR then
          { c with sent := c.sent ++ [Command.str "getposition",
                                      Command.dict "setposition" (posReply + offset)] }
        else if whence = SEEK_END then
          { c with sent := c.sent ++ [Command.dict "setposition" (length c - offset)] }
        else
          { c with sent := c.sent ++ [Command.dict "setposition" offset] }
      (finalReply, { c1 with sent := c1.sent ++ [Command.str "getposition"] }))
    self

/-- `tell()` (lines 439–445): return `self.position`. -/
def tell (self : AudioPlayer) (reply : Int) :
    Except String (Option Int × AudioPlayer × List String) :=
  playing_wrapper
    (fun c => (reply, { c with sent := c.sent ++ [Command.str "getposition"] }))
    self

end AudioPlayer

/-- Observable side effects of `AudioPlayer.stop`. -/
inductive StopEvent where
  | setPlayingFalse
  | joinWorker
  | clearPaused
deriving DecidableEq

/-- `stop()` (lines 329–342): if `msg_dict.get(playing, False)`, set
`playing` false, join the worker, then clear `paused`; otherwise do nothing.
Total: there is no exception path — on a controller that never opened, the
dict lookup just defaults to false. -/
def AudioPlayer.stop (self : AudioPlayer) : AudioPlayer × List StopEvent :=
  if self.playing then
    let m : CtrlMsg :=
      { self._msg_dict with playing := some false, paused := some false }
    ({ self with _msg_dict := m },
     [.setPlayingFalse, .joinWorker, .clearPaused])
  else
    (self, [])

/-- A worker state with explicit pause flag, command queue and device
schedule, used to instantiate the theorems below on concrete inputs. -/
def exWorker (frames : List (List Nat)) (loops : Int) (n : Nat)
    (pausedFlag : Bool) (queue : List Command) (okDev : Nat → Bool) : WorkerState :=
  { msg := { playing := true, paused := pausedFlag },
    fileobj := mkFile frames loops,
    device := { buffer_size := n, ok := okDev, written := [] },
    buf := zeros n, queue := queue, replies := [], processed := [] }

/-- Device state after one accepted write. -/
def writtenDev (d : Device) (buf : List Nat) : Device :=
  { d with written := d.written ++ [buf] }

/-- Worker state after one unpaused feed of the read result `buf` padded to
the nominal buffer size: decoder advanced to `f2`, the padded buffer
appended to the device trace, `buf` stored in the loop variable. -/
def fedState (s : WorkerState) (buf : List Nat) (f2 : FFmpegFile) : WorkerState :=
  let d : Device :=
    writtenDev s.device (buf ++ zeros (s.device.buffer_size - buf.length))
  { s with fileobj := f2, buf := buf, device := d }

/-- Worker state after one paused iteration: one zero buffer written. -/
def pausedFed (s : WorkerState) : WorkerState :=
  { s with device := writtenDev s.device (zeros s.device.buffer_size) }

/-- Worker state after one paused iteration that services command `c` with
dispatch outcome `fr`, the rest of the queue being `rest`. -/
def pausedCmdFed (s : WorkerState) (c : Command) (rest : List Command)
    (fr : FFmpegFile × Option Int) : WorkerState :=
  let d : Device := writtenDev s.device (zeros s.device.buffer_size)
  { s with device := d, fileobj := fr.1, queue := rest,
           replies := s.replies ++ fr.2.toList, processed := s.processed ++ [c] }

/-- A paused worker holding a three-command queue (loops budget 0). -/
def w6 : WorkerState :=
  exWorker [[1, 2]] 0 2 true
    [Command.str "getloops", Command.dict "setloops" 5, Command.str "getloops"]
    (fun _ => true)

/-- The value a controller call returns to the caller (`None` on the guard
path, the received reply on the playing path, nothing on a raised fault). -/
def callValue (r : Except String (Option Int × AudioPlayer × List String)) :
    Option Int :=
  match r with
  | .ok (v, _, _) => v
  | .error _ => none

/-- A controller that was never opened: the shared dict has no keys. -/
def neverOpened : AudioPlayer :=
  { _msg_dict := { playing := none, paused := none, length := none,
                   filename := none },
    sent := [] }

/-- A controller whose worker has finished: `playing` was set back to false
by the worker, the open-time keys are still present. -/
def stoppedPlayer : AudioPlayer :=
  { _msg_dict := { playing := some false, paused := some false,
                   length := some 1, filename := some "track.pcm" },
    sent := [] }

/-- A controller with a live worker. -/
def livePlayer : AudioPlayer :=
  { _msg_dict := { playing := some true, paused := some false,
                   length := some 5, filename := some "a.mp3" },
    sent := [] }

/-- Shared dict state after `stop` observes a running worker: `playing` and
`paused` both set to false. -/
def stoppedOf (self : AudioPlayer) : AudioPlayer :=
  let m : CtrlMsg :=
    { self._msg_dict with playing := some false, paused := some false }
  { self with _msg_dict := m }

/-! ### Dispatch lemmas -/

theorem dispatch_getposition_eq (f : FFmpegFile) :
    dispatch f (.str "getposition") = some (f, some f.position) := rfl

theorem dispatch_getloops_eq (f : FFmpegFile) :
    dispatch f (.str "getloops") = some (f, some f._loops) := rfl

theorem dispatch_getloopcount_eq (f : FFmpegFile) :
    dispatch f (.str "getloopcount") = some (f, some (f._loop_count : Int)) := rfl

theorem dispatch_setposition_eq (f : FFmpegFile) (v : Int) :
    dispatch f (.dict "setposition" v) = some (f.setPosition v, none) := rfl

theorem dispatch_setloops_eq (f : FFmpegFile) (v : Int) :
    dispatch f (.dict "setloops" v) = some ({ f with _loops := v }, none) := rfl

/-- Dispatch never fails on the message shapes the controller sends. -/
theorem dispatch_protocol_isSome (f : FFmpegFile) (c : Command)
    (h : protocolCmd c = true) : (dispatch f c).isSome = true := by
  cases c with
  | str s =>
    simp only [protocolCmd, Bool.or_eq_true, beq_iff_eq] at h
    rcases h with (h | h) | h <;> subst h <;> rfl
  | dict k v =>
    simp only [protocolCmd, Bool.or_eq_true, beq_iff_eq] at h
    rcases h with h | h <;> subst h <;> rfl

/-! ### C10: unrecognized commands are ignored -/

/-- C10: a Command Channel message matching none of the five recognized
command forms (in the sense of the membership tests of lines 267–275) is
serviced without a reply, without any decoder or loop state change and
without an exception, and the feed loop just moves on: `pollCommand` only
pops the message off the queue (recording it in the ghost trace). -/
theorem c10_unknown_command_ignored (s : WorkerState) (c : Command)
    (rest : List Command) (hq : s.queue = c :: rest)
    (h1 : hasCmd c "getposition" = false) (h2 : hasCmd c "setposition" = false)
    (h3 : hasCmd c "getloops" = false) (h4 : hasCmd c "setloops" = false)
    (h5 : hasCmd c "getloopcount" = false) :
    dispatch s.fileobj c = some (s.fileobj, none) ∧
    pollCommand s = some { s with queue := rest, processed := s.processed ++ [c] } := by
  have hd : dispatch s.fileobj c = some (s.fileobj, none) := by
    simp [dispatch, h1, h2, h3, h4, h5]
  refine ⟨hd, ?_⟩
  simp [pollCommand, hq, hd]

theorem c10_unknown_command_ignored_witness :
    dispatch (exWorker [[1, 2]] 0 2 false [Command.str "hello"] (fun _ => true)).fileobj
        (Command.str "hello") =
      some ((exWorker [[1, 2]] 0 2 false [Command.str "hello"] (fun _ => true)).fileobj, none) ∧
    pollCommand (exWorker [[1, 2]] 0 2 false [Command.str "hello"] (fun _ => true)) =
      some { exWorker [[1, 2]] 0 2 false [Command.str "hello"] (fun _ => true) with
             queue := [],
             processed := (exWorker [[1, 2]] 0 2 false [Command.str "hello"] (fun _ => true)).processed
               ++ [Command.str "hello"] } :=
  c10_unknown_command_ignored _ (Command.str "hello") [] rfl (by decide) (by decide)
    (by decide) (by decide) (by decide)

/-! ### C5: SetPosition is clamped and sends no reply -/

/-- C5: dispatching a SetPosition(v) command stores the pending seek target
clamped to `[0, length]` — a `v` beyond `length` yields `length` and a
negative `v` yields `0`, never an error — changes no other decoder field,
sends no reply, and the frame position the next `read` will start from is
exactly the clamped target.  The clamp lives in the `position` setter of
`io_base.AudioIO`, modelled from the spec (§4.2); `_set_position` itself is
ffmpeg_file.py lines 87–93 and the pending seek is consumed at lines
256–264. -/
theorem c5_setposition_clamped (f : FFmpegFile) (v : Int) :
    dispatch f (.dict "setposition" v) = some (f.setPosition v, none) ∧
    (f.setPosition v)._seek_pos = max 0 (min v f.length) ∧
    (appliedPos (f.setPosition v) : Int) = max 0 (min v f.length) ∧
    (f.length ≤ v → (f.setPosition v)._seek_pos = f.length) ∧
    (v ≤ 0 → (f.setPosition v)._seek_pos = 0) ∧
    (f.setPosition v).frames = f.frames ∧
    (f.setPosition v).framePos = f.framePos ∧
    (f.setPosition v)._data = f._data ∧
    (f.setPosition v)._loops = f._loops ∧
    (f.setPosition v)._loop_count = f._loop_count := by
  refine ⟨rfl, rfl, ?_, ?_, ?_, rfl, rfl, rfl, rfl, rfl⟩
  · simp only [appliedPos, FFmpegFile.setPosition, FFmpegFile._set_position,
      FFmpegFile.length]
    have hlen : (0 : Int) ≤ (f.frames.length : Int) := by positivity
    rw [if_pos (by omega)]
    omega
  · intro h
    simp only [FFmpegFile.setPosition, FFmpegFile._set_position, FFmpegFile.length] at *
    omega
  · intro h
    simp only [FFmpegFile.setPosition, FFmpegFile._set_position, FFmpegFile.length] at *
    have hlen : (0 : Int) ≤ (f.frames.length : Int) := by positivity
    omega

theorem c5_setposition_clamped_witness :
    (mkFile [[1], [2]] 0).length ≤ 99 ∧
    ((mkFile [[1], [2]] 0).setPosition 99)._seek_pos = (mkFile [[1], [2]] 0).length :=
  ⟨by decide, (c5_setposition_clamped (mkFile [[1], [2]] 0) 99).2.2.2.1 (by decide)⟩

/-! ### C7: operations while not playing -/

/-- C7 (amended): provided the Shared Status Table holds a `filename` key —
which `open` always sets — every controller query/command operation called
while `playing` is false sends nothing on the Command Channel, changes no
state, prints exactly one diagnostic message and returns None, raising no
fault.  (Without the `filename` key the diagnostic formatting itself raises,
see the counterexample.) -/
theorem c7_guard_not_playing (c : AudioPlayer) (fn : String)
    (hfn : c._msg_dict.filename = some fn) (hnp : AudioPlayer.playing c = false)
    (reply v offset posReply finalReply : Int) (whence : Nat) :
    AudioPlayer.position_get c reply = .ok (none, c, [fn ++ " is not playing."]) ∧
    AudioPlayer.position_set c v = .ok (none, c, [fn ++ " is not playing."]) ∧
    AudioPlayer.loops_get c reply = .ok (none, c, [fn ++ " is not playing."]) ∧
    AudioPlayer.loops_set c v = .ok (none, c, [fn ++ " is not playing."]) ∧
    AudioPlayer.loop_count_get c reply = .ok (none, c, [fn ++ " is not playing."]) ∧
    AudioPlayer.seek c offset whence posReply finalReply =
      .ok (none, c, [fn ++ " is not playing."]) ∧
    AudioPlayer.tell c reply = .ok (none, c, [fn ++ " is not playing."]) := by
  refine ⟨?_, ?_, ?_, ?_, ?_, ?_, ?_⟩ <;>
    simp [AudioPlayer.position_get, AudioPlayer.position_set, AudioPlayer.loops_get,
      AudioPlayer.loops_set, AudioPlayer.loop_count_get, AudioPlayer.seek,
      AudioPlayer.tell, AudioPlayer.playing_wrapper, hnp, hfn]

theorem c7_guard_not_playing_witness :
    AudioPlayer.position_get stoppedPlayer 7 =
      .ok (none, stoppedPlayer, ["track.pcm is not playing."]) ∧
    AudioPlayer.tell stoppedPlayer 7 =
      .ok (none, stoppedPlayer, ["track.pcm is not playing."]) :=
  ⟨(c7_guard_not_playing stoppedPlayer "track.pcm" rfl rfl 7 0 0 0 0 0).1,
   (c7_guard_not_playing stoppedPlayer "track.pcm" rfl rfl 7 0 0 0 0 0).2.2.2.2.2.2⟩

/-- C7 counterexample: on a controller that was never opened the guard is
reached with `playing` false but no `filename` key in the shared dict, so
the diagnostic formatting `"%(filename)s is not playing." % msg_dict`
raises KeyError: the call faults instead of returning a neutral result. -/
theorem c7_counterexample :
    AudioPlayer.playing neverOpened = false ∧
    AudioPlayer.position_get neverOpened 0 = .error "KeyError: filename" := by
  exact ⟨rfl, rfl⟩

/-! ### C8: stop is idempotent and safe -/

/-- C8: calling `stop()` with no running worker — including twice in a row,
or on a controller that was never opened — is a no-op that leaves `playing`
false and raises no fault (the model of `stop` is total); calling it while
running sets `playing` false, joins the worker, then clears `paused`, in
that order. -/
theorem c8_stop_idempotent (self : AudioPlayer) :
    (AudioPlayer.playing self = false → AudioPlayer.stop self = (self, [])) ∧
    (AudioPlayer.playing self = true →
      AudioPlayer.stop self =
        (stoppedOf self, [.setPlayingFalse, .joinWorker, .clearPaused])) ∧
    AudioPlayer.playing (AudioPlayer.stop self).1 = false ∧
    AudioPlayer.stop (AudioPlayer.stop self).1 = ((AudioPlayer.stop self).1, []) := by
  by_cases hp : AudioPlayer.playing self
  · have hp2 : self._msg_dict.playing.getD false = true := hp
    refine ⟨by simp [hp], fun _ => by simp [AudioPlayer.stop, hp, stoppedOf], ?_, ?_⟩
    · simp [AudioPlayer.stop, AudioPlayer.playing, hp, hp2, stoppedOf]
    · simp [AudioPlayer.stop, AudioPlayer.playing, hp, hp2, stoppedOf]
  · have hp' : AudioPlayer.playing self = false := by simpa using hp
    have hp2 : self._msg_dict.playing.getD false = false := hp'
    refine ⟨fun _ => by simp [AudioPlayer.stop, hp'], by simp [hp'], ?_, ?_⟩
    · simp [AudioPlayer.stop, AudioPlayer.playing, hp', hp2]
    · simp [AudioPlayer.stop, AudioPlayer.playing, hp', hp2]

theorem c8_stop_idempotent_witness :
    (AudioPlayer.playing neverOpened = false →
      AudioPlayer.stop neverOpened = (neverOpened, [])) ∧
    (AudioPlayer.playing neverOpened = true →
      AudioPlayer.stop neverOpened =
        (stoppedOf neverOpened, [.setPlayingFalse, .joinWorker, .clearPaused])) ∧
    AudioPlayer.playing (AudioPlayer.stop neverOpened).1 = false ∧
    AudioPlayer.stop (AudioPlayer.stop neverOpened).1 =
      ((AudioPlayer.stop neverOpened).1, []) :=
  c8_stop_idempotent neverOpened

/-! ### Step-level facts about the feed loop -/

/-- `dispatch` never touches the frame position, the carried data, the wrap
counter or the frame list (only `_seek_pos` and `_loops` can change). -/
theorem dispatch_preserves (f : FFmpegFile) (c : Command) (f' : FFmpegFile)
    (r : Option Int) (h : dispatch f c = some (f', r)) :
    f'.framePos = f.framePos ∧ f'._data = f._data ∧
    f'._loop_count = f._loop_count ∧ f'.frames = f.frames := by
  unfold dispatch at h
  split_ifs at h
  · cases h; exact ⟨rfl, rfl, rfl, rfl⟩
  · cases c with
    | str s => cases h
    | dict k v =>
      cases h
      exact ⟨rfl, rfl, rfl, rfl⟩
  · cases h; exact ⟨rfl, rfl, rfl, rfl⟩
  · cases c with
    | str s => cases h
    | dict k v =>
      cases h
      exact ⟨rfl, rfl, rfl, rfl⟩
  · cases h; exact ⟨rfl, rfl, rfl, rfl⟩
  · cases h; exact ⟨rfl, rfl, rfl, rfl⟩

/-- The unpaused audio feed, fully computed. -/
theorem feedAudio_unpaused (s : WorkerState) (buf : List Nat) (f2 : FFmpegFile)
    (hpause : s.msg.paused = false)
    (hread : s.fileobj.readline s.device.buffer_size = (buf, f2))
    (hok : s.device.ok s.device.written.length = true) :
    feedAudio s = some (fedState s buf f2) := by
  simp only [feedAudio, hpause, Bool.not_false, if_true, hread, Device.write, hok]
  simp [fedState, writtenDev]

/-- The paused audio feed, fully computed. -/
theorem feedAudio_paused (s : WorkerState)
    (hpause : s.msg.paused = true)
    (hok : s.device.ok s.device.written.length = true) :
    feedAudio s = some (pausedFed s) := by
  simp only [feedAudio, hpause, Bool.not_true, Bool.false_eq_true, if_false,
    Device.write, hok]
  simp [pausedFed, writtenDev]

/-- The audio feed never writes the shared dict, the queue, the replies or
the ghost trace. -/
theorem feedAudio_fields (t t' : WorkerState) (h : feedAudio t = some t') :
    t'.msg = t.msg ∧ t'.queue = t.queue ∧ t'.replies = t.replies ∧
    t'.processed = t.processed := by
  simp only [feedAudio] at h
  split at h
  · rcases hw : t.device.write
        (((t.fileobj.readline t.device.buffer_size).1) ++
          zeros (t.device.buffer_size - ((t.fileobj.readline t.device.buffer_size).1).length))
      with _ | w
    · rw [hw] at h; cases h
    · rw [hw] at h; cases h; exact ⟨rfl, rfl, rfl, rfl⟩
  · rcases hw : t.device.write (zeros t.device.buffer_size) with _ | w
    · rw [hw] at h; cases h
    · rw [hw] at h; cases h; exact ⟨rfl, rfl, rfl, rfl⟩

/-- Servicing the pipe never writes the shared dict, the device or the loop
variable, pops exactly the head of the queue and records it in the trace. -/
theorem pollCommand_fields (t t' : WorkerState) (h : pollCommand t = some t') :
    t'.msg = t.msg ∧ t'.device = t.device ∧ t'.buf = t.buf ∧
    t'.processed = t.processed ++ t.queue.take 1 ∧ t'.queue = t.queue.drop 1 := by
  unfold pollCommand at h
  cases hq : t.queue with
  | nil => rw [hq] at h; cases h; simp [hq]
  | cons c rest =>
    rw [hq] at h
    dsimp only at h
    rcases hd : dispatch t.fileobj c with _ | fr
    · rw [hd] at h; exact Option.noConfusion h
    · rw [hd] at h; dsimp only at h; cases h; simp [hq]

/-- One feed-loop iteration never writes the shared dict, and services at
most one command: exactly the head of the queue, in FIFO order. -/
theorem feedStep_fields (t t' : WorkerState) (h : feedStep t = some t') :
    t'.msg = t.msg ∧ t'.processed = t.processed ++ t.queue.take 1 ∧
    t'.queue = t.queue.drop 1 := by
  rcases ha : feedAudio t with _ | t1
  · rw [feedStep, ha] at h; cases h
  · rw [feedStep, ha] at h
    simp only [Option.some_bind] at h
    obtain ⟨hm1, hq1, _, hp1⟩ := feedAudio_fields t t1 ha
    obtain ⟨hm2, _, _, hp2, hq2⟩ := pollCommand_fields t1 t' h
    exact ⟨hm2.trans hm1, by rw [hp2, hp1, hq1], by rw [hq2, hq1]⟩

/-! ### C2: short reads are padded to a full buffer -/

/-- Reads return at most the requested size (`data[:size]`, line 348). -/
theorem read_length_le (f : FFmpegFile) (size : Nat) :
    (f.read size).1.length ≤ size := by
  unfold FFmpegFile.read
  simp [List.length_take]

/-- C2: in an unpaused iteration in which the Decoder read returned `k < n`
bytes (`n` the Output Sink buffer size), the worker writes a buffer of
exactly `n` bytes whose last `n − k` bytes are all zero (the `buf_filler`
padding of lines 247–256). -/
theorem c2_partial_read_padded (s : WorkerState) (buf : List Nat) (f2 : FFmpegFile)
    (hpause : s.msg.paused = false)
    (hread : s.fileobj.readline s.device.buffer_size = (buf, f2))
    (hk : buf.length < s.device.buffer_size)
    (hok : s.device.ok s.device.written.length = true) :
    feedAudio s = some (fedState s buf f2) ∧
    (fedState s buf f2).device.written =
      s.device.written ++ [buf ++ zeros (s.device.buffer_size - buf.length)] ∧
    (buf ++ zeros (s.device.buffer_size - buf.length)).length = s.device.buffer_size ∧
    (buf ++ zeros (s.device.buffer_size - buf.length)).drop buf.length =
      zeros (s.device.buffer_size - buf.length) := by
  refine ⟨feedAudio_unpaused s buf f2 hpause hread hok, rfl, ?_, List.drop_left _ _⟩
  simp only [List.length_append, zeros, List.length_replicate]
  omega

theorem c2_partial_read_padded_witness :
    feedAudio (exWorker [] 0 2 false [] (fun _ => true)) =
      some (fedState (exWorker [] 0 2 false [] (fun _ => true)) [] (mkFile [] 0)) ∧
    (([] : List Nat) ++
        zeros ((exWorker [] 0 2 false [] (fun _ => true)).device.buffer_size -
          ([] : List Nat).length)).length =
      (exWorker [] 0 2 false [] (fun _ => true)).device.buffer_size :=
  ⟨(c2_partial_read_padded (exWorker [] 0 2 false [] (fun _ => true)) [] (mkFile [] 0)
      rfl rfl (by decide) rfl).1,
   (c2_partial_read_padded (exWorker [] 0 2 false [] (fun _ => true)) [] (mkFile [] 0)
      rfl rfl (by decide) rfl).2.2.1⟩

/-- Servicing the pipe leaves the frame position, the carried data, the wrap
counter and the frame list of the decoder untouched. -/
theorem pollCommand_fileobj (t t' : WorkerState) (h : pollCommand t = some t') :
    t'.fileobj.framePos = t.fileobj.framePos ∧ t'.fileobj._data = t.fileobj._data ∧
    t'.fileobj._loop_count = t.fileobj._loop_count ∧
    t'.fileobj.frames = t.fileobj.frames := by
  unfold pollCommand at h
  cases hq : t.queue with
  | nil => rw [hq] at h; cases h; exact ⟨rfl, rfl, rfl, rfl⟩
  | cons c rest =>
    rw [hq] at h
    dsimp only at h
    rcases hd : dispatch t.fileobj c with _ | fr
    · rw [hd] at h; exact Option.noConfusion h
    · rw [hd] at h
      dsimp only at h
      cases h
      exact dispatch_preserves t.fileobj c fr.1 fr.2 (by simpa using hd)

/-! ### C4: paused iterations write pure silence -/

/-- C4: in a paused iteration with `playing` true the worker writes exactly
one all-zero buffer of `buffer_size` bytes (line 260), performs no Decoder
read — frame position, carried data, wrap counter and frame list are all
unchanged — keeps the loop variable `buf`, and the loop guard still holds,
so the loop continues with the next iteration. -/
theorem c4_pause_writes_silence (s s' : WorkerState)
    (hpause : s.msg.paused = true) (hplay : s.msg.playing = true)
    (hstep : feedStep s = some s') :
    s'.device.written = s.device.written ++ [zeros s.device.buffer_size] ∧
    s'.fileobj.framePos = s.fileobj.framePos ∧
    s'.fileobj._data = s.fileobj._data ∧
    s'.fileobj._loop_count = s.fileobj._loop_count ∧
    s'.fileobj.frames = s.fileobj.frames ∧
    s'.buf = s.buf ∧ s'.msg = s.msg ∧
    loopCond s' = true := by
  have hok : s.device.ok s.device.written.length = true := by
    by_contra hokf
    have hokf' : s.device.ok s.device.written.length = false := by simpa using hokf
    have hnone : feedAudio s = none := by
      simp [feedAudio, hpause, Device.write, hokf']
    rw [feedStep, hnone] at hstep; cases hstep
  have ha : feedAudio s = some (pausedFed s) := feedAudio_paused s hpause hok
  rw [feedStep, ha] at hstep
  simp only [Option.some_bind] at hstep
  obtain ⟨hm, hdev, hbuf, _, _⟩ := pollCommand_fields _ _ hstep
  obtain ⟨h1, h2, h3, h4⟩ := pollCommand_fileobj _ _ hstep
  have hmsg : s'.msg = s.msg := by rw [hm]; rfl
  refine ⟨?_, ?_, ?_, ?_, ?_, ?_, hmsg, ?_⟩
  · rw [hdev]; simp [pausedFed, writtenDev]
  · simpa [pausedFed] using h1
  · simpa [pausedFed] using h2
  · simpa [pausedFed] using h3
  · simpa [pausedFed] using h4
  · simpa [pausedFed] using hbuf
  · simp [loopCond, hmsg, hplay, hpause]

theorem c4_pause_writes_silence_witness :
    ((feedStep (exWorker [[5, 6]] 0 2 true [] (fun _ => true))).get (by decide)).device.written =
      (exWorker [[5, 6]] 0 2 true [] (fun _ => true)).device.written ++
        [zeros (exWorker [[5, 6]] 0 2 true [] (fun _ => true)).device.buffer_size] :=
  (c4_pause_writes_silence _ _ rfl rfl
    (Option.some_get (by decide)).symm).1

/-! ### C1: the playing flag on loop exit -/

/-- C1 (amended): when the feed loop exits normally — end of stream with the
loop budget exhausted, or an observed stop — line 279 sets `playing` to
false before the worker terminates; but when a Decoder/Output Sink exception
is raised inside the loop, it propagates out of `_play_proc` through the
non-suppressing `with` blocks and the shared `playing` flag keeps its
previous value: it is not set to false. -/
theorem c1_playing_flag_on_exit (fuel : Nat) (s : WorkerState) :
    ((runFeed fuel s).isFinished = true → (runFeed fuel s).state.msg.playing = false) ∧
    ((runFeed fuel s).isErrored = true → (runFeed fuel s).state.msg = s.msg) := by
  induction fuel generalizing s with
  | zero =>
    constructor <;> intro h <;> simp [runFeed, RunResult.isFinished,
      RunResult.isErrored] at h
  | succ fuel ih =>
    rw [runFeed]
    by_cases hc : loopCond s = true
    · rw [if_pos hc]
      rcases hf : feedStep s with _ | s1
      · exact ⟨fun h => by simp [RunResult.isFinished] at h,
          fun _ => rfl⟩
      · have hmsg := (feedStep_fields s s1 hf).1
        exact ⟨(ih s1).1, fun h => ((ih s1).2 h).trans hmsg⟩
    · rw [if_neg hc]
      exact ⟨fun _ => rfl, fun h => by simp [RunResult.isErrored] at h⟩

theorem c1_playing_flag_on_exit_witness :
    (runFeed 1 (exWorker [[1, 2]] 0 2 false [] (fun _ => false))).isErrored = true ∧
    (runFeed 1 (exWorker [[1, 2]] 0 2 false [] (fun _ => false))).state.msg =
      (exWorker [[1, 2]] 0 2 false [] (fun _ => false)).msg ∧
    (runFeed 8 (exWorker [[1, 2]] 0 2 false [] (fun _ => true))).isFinished = true ∧
    (runFeed 8 (exWorker [[1, 2]] 0 2 false [] (fun _ => true))).state.msg.playing = false :=
  ⟨rfl,
   (c1_playing_flag_on_exit 1 (exWorker [[1, 2]] 0 2 false [] (fun _ => false))).2 rfl,
   rfl,
   (c1_playing_flag_on_exit 8 (exWorker [[1, 2]] 0 2 false [] (fun _ => true))).1 rfl⟩

/-- C1 counterexample: with a Decoder/Output Sink error raised in the first
iteration (the device write fails) the worker execution terminates by the
propagating exception and the Shared Status Table still has `playing = true`
— refuting the claim that `playing` is set to false on every exit, errors
included. -/
theorem c1_counterexample :
    (runFeed 1 (exWorker [[1, 2]] 0 2 false [] (fun _ => false))).isErrored = true ∧
    (runFeed 1 (exWorker [[1, 2]] 0 2 false [] (fun _ => false))).state.msg.playing = true :=
  ⟨rfl, rfl⟩

/-! ### C6: commands are serviced one per iteration, in order -/

/-- A paused iteration with an empty queue only writes one zero buffer. -/
theorem feedStep_paused_nil (s : WorkerState)
    (hpause : s.msg.paused = true)
    (hok : s.device.ok s.device.written.length = true)
    (hq : s.queue = []) :
    feedStep s = some (pausedFed s) := by
  rw [feedStep, feedAudio_paused s hpause hok, Option.some_bind]
  unfold pollCommand
  have hq2 : (pausedFed s).queue = [] := hq
  rw [hq2]

/-- A paused iteration with a pending command writes one zero buffer and
services exactly the head of the queue. -/
theorem feedStep_paused_cons (s : WorkerState) (c : Command) (rest : List Command)
    (fr : FFmpegFile × Option Int)
    (hpause : s.msg.paused = true)
    (hok : s.device.ok s.device.written.length = true)
    (hq : s.queue = c :: rest) (hd : dispatch s.fileobj c = some fr) :
    feedStep s = some (pausedCmdFed s c rest fr) := by
  rw [feedStep, feedAudio_paused s hpause hok, Option.some_bind]
  unfold pollCommand
  have hq2 : (pausedFed s).queue = c :: rest := hq
  rw [hq2]
  dsimp only
  have hd2 : dispatch (pausedFed s).fileobj c = some fr := hd
  rw [hd2]
  rfl

/-- A paused, playing worker with an error-free device drains its command
queue exactly one message per iteration, in FIFO order, replying as
sequential dispatch does. -/
theorem pausedRun_drains (fuel : Nat) :
    ∀ s : WorkerState, s.msg.playing = true → s.msg.paused = true →
      (∀ i, s.device.ok i = true) → (∀ c ∈ s.queue, protocolCmd c = true) →
      (runFeed fuel s).isFuelOut = true ∧
      (runFeed fuel s).state.processed = s.processed ++ s.queue.take fuel ∧
      (runFeed fuel s).state.queue = s.queue.drop fuel ∧
      (runFeed fuel s).state.replies =
        s.replies ++ (dispatchRun s.fileobj (s.queue.take fuel)).2 ∧
      (runFeed fuel s).state.fileobj = (dispatchRun s.fileobj (s.queue.take fuel)).1 := by
  induction fuel with
  | zero =>
    intro s _ _ _ _
    simp [runFeed, RunResult.isFuelOut, RunResult.state, dispatchRun]
  | succ fuel ih =>
    intro s hplay hpause hok hall
    have hc : loopCond s = true := by simp [loopCond, hplay, hpause]
    have hokw : s.device.ok s.device.written.length = true := hok _
    cases hqe : s.queue with
    | nil =>
      have hstep : feedStep s = some (pausedFed s) :=
        feedStep_paused_nil s hpause hokw hqe
      rw [runFeed, if_pos hc, hstep]
      have hres := ih (pausedFed s) hplay hpause hok (by rw [show (pausedFed s).queue = s.queue from rfl, hqe]; intro c hc; cases hc)
      obtain ⟨r1, r2, r3, r4, r5⟩ := hres
      refine ⟨r1, ?_, ?_, ?_, ?_⟩
      · rw [r2]; simp [pausedFed, writtenDev, hqe]
      · rw [r3]; simp [pausedFed, writtenDev, hqe]
      · rw [r4]; simp [pausedFed, writtenDev, hqe, dispatchRun]
      · rw [r5]; simp [pausedFed, writtenDev, hqe, dispatchRun]
    | cons c rest =>
      have hcp : protocolCmd c = true := hall c (by rw [hqe]; exact List.mem_cons_self c rest)
      have hsome := dispatch_protocol_isSome s.fileobj c hcp
      rw [Option.isSome_iff_exists] at hsome
      obtain ⟨fr, hd⟩ := hsome
      have hstep : feedStep s = some (pausedCmdFed s c rest fr) :=
        feedStep_paused_cons s c rest fr hpause hokw hqe hd
      rw [runFeed, if_pos hc, hstep]
      have hres := ih (pausedCmdFed s c rest fr) hplay hpause hok
        (by intro c' hc'
            exact hall c' (by rw [hqe]
                              exact List.mem_cons_of_mem c hc'))
      obtain ⟨r1, r2, r3, r4, r5⟩ := hres
      have hqproj : (pausedCmdFed s c rest fr).queue = rest := rfl
      refine ⟨r1, ?_, ?_, ?_, ?_⟩
      · rw [r2, hqproj, List.take_succ_cons]
        simp [pausedCmdFed, writtenDev, List.append_assoc]
      · rw [r3, hqproj, List.drop_succ_cons]
      · rw [r4, hqproj, List.take_succ_cons]
        simp [pausedCmdFed, writtenDev, dispatchRun, hd, List.append_assoc]
      · rw [r5, hqproj, List.take_succ_cons]
        simp [pausedCmdFed, writtenDev, dispatchRun, hd]

/-- C6: the Worker services at most one pending Command Channel message per
feed-loop iteration — each iteration pops exactly the head of the queue —
and over a run it processes the commands strictly in the order sent, the
replies being those of sequential dispatch, so the k-th get-type reply
answers the k-th get-type query. -/
theorem c6_commands_in_order (fuel : Nat) (s : WorkerState)
    (hplay : s.msg.playing = true) (hpause : s.msg.paused = true)
    (hok : ∀ i, s.device.ok i = true)
    (hq : ∀ c ∈ s.queue, protocolCmd c = true) :
    (∀ t t', feedStep t = some t' →
        t'.processed = t.processed ++ t.queue.take 1 ∧ t'.queue = t.queue.drop 1) ∧
    (runFeed fuel s).isFuelOut = true ∧
    (runFeed fuel s).state.processed = s.processed ++ s.queue.take fuel ∧
    (runFeed fuel s).state.queue = s.queue.drop fuel ∧
    (runFeed fuel s).state.replies =
      s.replies ++ (dispatchRun s.fileobj (s.queue.take fuel)).2 ∧
    (runFeed fuel s).state.fileobj = (dispatchRun s.fileobj (s.queue.take fuel)).1 :=
  ⟨fun t t' h => ⟨(feedStep_fields t t' h).2.1, (feedStep_fields t t' h).2.2⟩,
   pausedRun_drains fuel s hplay hpause hok hq⟩

theorem c6_commands_in_order_witness :
    (runFeed 3 w6).isFuelOut = true ∧
    (runFeed 3 w6).state.processed = w6.processed ++ w6.queue.take 3 ∧
    (runFeed 3 w6).state.replies = [0, 5] :=
  ⟨(c6_commands_in_order 3 w6 rfl rfl (fun _ => rfl) (by decide)).2.1,
   (c6_commands_in_order 3 w6 rfl rfl (fun _ => rfl) (by decide)).2.2.1,
   ((c6_commands_in_order 3 w6 rfl rfl (fun _ => rfl) (by decide)).2.2.2.2.1).trans
     (by decide)⟩

/-! ### C3: loop-budget semantics of the reader and termination -/

/-- Specification of the frame loop for a finite budget: the loop preserves
the stream, the budget and the carry-over field, and either returns the
empty buffer (final end of stream with the budget exhausted) or returns at
least `size` bytes while strictly consuming the run potential. -/
theorem readLoopF_spec (n : Nat) (hn : 0 < n) :
    ∀ fuel (f : FFmpegFile) (data : List Nat),
      f.frames.length - f.framePos < fuel →
      f._seek_pos = -1 →
      0 ≤ f._loops →
      (f._loop_count : Int) ≤ f._loops →
      (readLoopF fuel f n data).2.frames = f.frames ∧
      (readLoopF fuel f n data).2._loops = f._loops ∧
      (readLoopF fuel f n data).2._data = f._data ∧
      (((readLoopF fuel f n data).1 = [] ∧
        (readLoopF fuel f n data).2._loop_count = f._loop_count ∧
        f._loops ≤ (f._loop_count : Int) ∧
        (readLoopF fuel f n data).2._seek_pos = -1)
       ∨ (n ≤ (readLoopF fuel f n data).1.length ∧
          ((readLoopF fuel f n data).2._loop_count : Int) ≤ f._loops ∧
          ((readLoopF fuel f n data).2._seek_pos = -1 ∨
           (readLoopF fuel f n data).2._seek_pos = 0) ∧
          loopPotential n (readLoopF fuel f n data).2 (readLoopF fuel f n data).1 + 1 ≤
            loopPotential n f data + n)) := by
  intro fuel
  induction fuel with
  | zero => intro f data hfuel; omega
  | succ fuel ih =>
    intro f data hfuel hseek hL hlc
    rw [readLoopF]
    by_cases hcond : data = [] ∨ data.length < n
    · rw [if_pos hcond]
      cases hdrop : f.frames.drop f.framePos with
      | nil =>
        dsimp only
        have hpos : f.frames.length ≤ f.framePos := List.drop_eq_nil_iff.mp hdrop
        have hrem : remBytes f = 0 := by
          simp [remBytes, appliedPos, hseek, hdrop, sumBytes]
        by_cases hex : f._loops ≤ (f._loop_count : Int)
        · rw [if_pos ⟨by omega, hex⟩]
          by_cases hne : data.length ≠ 0
          · rw [if_pos hne]
            have hdl : data.length < n := by
              rcases hcond with h | h
              · subst h; simp at hne
              · exact h
            refine ⟨rfl, rfl, rfl, Or.inr ⟨?_, hlc, Or.inl hseek, ?_⟩⟩
            · simp [zeros]; omega
            · simp only [loopPotential, List.length_append, zeros,
                List.length_replicate, hrem]
              generalize (f._loops + 1 - (f._loop_count : Int)).toNat *
                (sumBytes f.frames + n) = P
              omega
          · rw [if_neg hne]
            have hdnil : data = [] := by
              have : data.length = 0 := by omega
              exact List.length_eq_zero.mp this
            exact ⟨rfl, rfl, rfl, Or.inl ⟨hdnil, rfl, hex, hseek⟩⟩
        · have hcnd : ¬(f._loops ≠ -1 ∧ f._loops ≤ (f._loop_count : Int)) :=
            fun h => hex h.2
          rw [if_neg hcnd]
          have hlen0 : (0 : Int) ≤ (f.frames.length : Int) := Int.ofNat_nonneg _
          have hsk : (FFmpegFile.seek { f with _loop_count := f._loop_count + 1 } 0)._seek_pos = 0 := by
            simp only [FFmpegFile.seek, FFmpegFile.setPosition, FFmpegFile._set_position,
              FFmpegFile.length]
            omega
          refine ⟨rfl, rfl, rfl, Or.inr ⟨?_, ?_, Or.inr hsk, ?_⟩⟩
          · simp [zeros]; omega
          · show ((f._loop_count + 1 : Nat) : Int) ≤ f._loops
            push_cast
            omega
          · have hremw : remBytes (FFmpegFile.seek { f with _loop_count := f._loop_count + 1 } 0) =
                sumBytes f.frames := by
              simp only [remBytes, appliedPos, hsk]
              rw [if_pos (by omega)]
              simp [FFmpegFile.seek, FFmpegFile.setPosition, FFmpegFile._set_position,
                FFmpegFile.length]
            simp only [loopPotential, List.length_append, zeros, List.length_replicate,
              hremw, hrem]
            have hlcx : (f._loop_count : Int) < f._loops := by omega
            show (data.length + (n - data.length)) + sumBytes f.frames +
                ((FFmpegFile.seek { f with _loop_count := f._loop_count + 1 } 0)._loops + 1 -
                  ((FFmpegFile.seek { f with _loop_count := f._loop_count + 1 } 0)._loop_count : Int)).toNat *
                  (sumBytes (FFmpegFile.seek { f with _loop_count := f._loop_count + 1 } 0).frames + n) + 1 ≤
              data.length + 0 + (f._loops + 1 - (f._loop_count : Int)).toNat *
                (sumBytes f.frames + n) + n
            have hfe : (FFmpegFile.seek { f with _loop_count := f._loop_count + 1 } 0)._loops = f._loops := rfl
            have hfc : (FFmpegFile.seek { f with _loop_count := f._loop_count + 1 } 0)._loop_count =
                f._loop_count + 1 := rfl
            have hff : (FFmpegFile.seek { f with _loop_count := f._loop_count + 1 } 0).frames = f.frames := rfl
            rw [hfe, hfc, hff]
            have hT : (f._loops + 1 - (f._loop_count : Int)).toNat =
                (f._loops + 1 - ((f._loop_count + 1 : Nat) : Int)).toNat + 1 := by
              push_cast
              omega
            rw [hT, Nat.succ_mul]
            generalize (f._loops + 1 - ((f._loop_count + 1 : Nat) : Int)).toNat *
              (sumBytes f.frames + n) = P
            have hdlen : data.length < n ∨ data = [] := by tauto
            rcases hdlen with h | h
            · omega
            · subst h; simp; omega
      | cons fr rest =>
        dsimp only
        have hpos : f.framePos < f.frames.length := by
          by_contra hge
          rw [List.drop_eq_nil_of_le (by omega)] at hdrop
          cases hdrop
        have hd2 : f.frames.drop (f.framePos + 1) = rest := by
          rw [← List.tail_drop, hdrop]
          rfl
        have ihr := ih { f with framePos := f.framePos + 1 } (data ++ fr)
          (by simp; omega) hseek hL hlc
        have hrem2 : remBytes f =
            fr.length + remBytes { f with framePos := f.framePos + 1 } := by
          simp only [remBytes, appliedPos, hseek]
          rw [if_neg (by omega), if_neg (by omega)]
          rw [hdrop, hd2]
          simp [sumBytes]
        have hpot : loopPotential n { f with framePos := f.framePos + 1 } (data ++ fr) =
            loopPotential n f data := by
          simp only [loopPotential, List.length_append]
          have hx : remBytes { f with framePos := f.framePos + 1 } = remBytes f - fr.length := by
            omega
          have hge : fr.length ≤ remBytes f := by omega
          rw [hx]
          generalize (f._loops + 1 - (f._loop_count : Int)).toNat * (sumBytes f.frames + n) = P
          omega
        obtain ⟨g1, g2, g3, g4⟩ := ihr
        refine ⟨g1, g2, g3, ?_⟩
        rcases g4 with ⟨e1, e2, e3, e4⟩ | ⟨e1, e2, e3, e4⟩
        · exact Or.inl ⟨e1, e2, e3, e4⟩
        · exact Or.inr ⟨e1, e2, e3, by rw [hpot] at e4; exact e4⟩
    · rw [if_neg hcond]
      push_neg at hcond
      refine ⟨rfl, rfl, rfl, Or.inr ⟨?_, hlc, Or.inl hseek, ?_⟩⟩
      · show n ≤ data.length
        omega
      · show loopPotential n f data + 1 ≤ loopPotential n f data + n
        omega

/-- The pending-seek handling preserves all decoder fields except the frame
cursor, which moves to the seek-adjusted position. -/
theorem seekApplied_spec (f : FFmpegFile)
    (hseek : f._seek_pos = -1 ∨ f._seek_pos = 0) :
    (seekApplied f).frames = f.frames ∧ (seekApplied f)._loops = f._loops ∧
    (seekApplied f)._loop_count = f._loop_count ∧
    (seekApplied f)._data = f._data ∧ (seekApplied f)._seek_pos = -1 ∧
    (seekApplied f).framePos = appliedPos f := by
  rcases hseek with h | h
  · rw [seekApplied, if_neg (by rw [h]; omega), appliedPos, if_neg (by rw [h]; omega)]
    exact ⟨rfl, rfl, rfl, rfl, h, rfl⟩
  · rw [seekApplied, if_pos (by rw [h]; omega), appliedPos, if_pos (by rw [h]; omega)]
    exact ⟨rfl, rfl, rfl, rfl, rfl, rfl⟩

/-- The seek-adjusted pending position is unchanged by applying the seek. -/
theorem remBytes_seekApplied (f : FFmpegFile)
    (hseek : f._seek_pos = -1 ∨ f._seek_pos = 0) :
    remBytes (seekApplied f) = remBytes f := by
  obtain ⟨h1, _, _, _, h5, h6⟩ := seekApplied_spec f hseek
  rw [remBytes, remBytes, appliedPos, if_neg (by rw [h5]; omega), h1, h6]

/-- The whole-state potential is unchanged by applying the seek. -/
theorem potential_seekApplied (f : FFmpegFile) (n : Nat)
    (hseek : f._seek_pos = -1 ∨ f._seek_pos = 0) :
    potential n (seekApplied f) = potential n f := by
  obtain ⟨h1, h2, h3, h4, _, _⟩ := seekApplied_spec f hseek
  rw [potential, potential, loopPotential, loopPotential, h1, h2, h3, h4,
    remBytes_seekApplied f hseek]

/-- Specification of a single `read` call for a finite budget: the stream
and budget are preserved, and the call either returns the empty byte string
(final end of stream, budget exhausted, wrap counter unchanged) or returns
exactly `n` bytes and strictly decreases the decoder potential. -/
theorem read_spec (f : FFmpegFile) (n : Nat) (hn : 0 < n)
    (hL : 0 ≤ f._loops) (hlc : (f._loop_count : Int) ≤ f._loops)
    (hseek : f._seek_pos = -1 ∨ f._seek_pos = 0) :
    (f.read n).2.frames = f.frames ∧
    (f.read n).2._loops = f._loops ∧
    (((f.read n).1 = [] ∧ (f.read n).2._loop_count = f._loop_count ∧
      f._loops ≤ (f._loop_count : Int))
     ∨ ((f.read n).1.length = n ∧
        ((f.read n).2._loop_count : Int) ≤ f._loops ∧
        ((f.read n).2._seek_pos = -1 ∨ (f.read n).2._seek_pos = 0) ∧
        potential n (f.read n).2 < potential n f)) := by
  obtain ⟨h1, h2, h3, h4, h5, h6⟩ := seekApplied_spec f hseek
  have hkey := readLoopF_spec n hn
    ((seekApplied f).frames.length - (seekApplied f).framePos + 1)
    (seekApplied f) (seekApplied f)._data (by omega) h5
    (by rw [h2]; exact hL) (by rw [h2, h3]; exact hlc)
  rw [FFmpegFile.read]
  set r := readLoopF ((seekApplied f).frames.length - (seekApplied f).framePos + 1)
    (seekApplied f) n (seekApplied f)._data with hr
  obtain ⟨g1, g2, g3, g4⟩ := hkey
  dsimp only
  refine ⟨by rw [g1, h1], by rw [g2, h2], ?_⟩
  rcases g4 with ⟨e1, e2, e3, e4⟩ | ⟨e1, e2, e3, e4⟩
  · refine Or.inl ⟨by rw [e1]; exact List.take_nil, ?_, ?_⟩
    · show r.2._loop_count = f._loop_count
      rw [e2, h3]
    · rw [← h2, ← h3]; exact e3
  · refine Or.inr ⟨?_, ?_, ?_, ?_⟩
    · rw [List.length_take]; omega
    · show (r.2._loop_count : Int) ≤ f._loops
      rw [← h2]; exact e2
    · exact e3
    · have hpe : potential n (seekApplied f) = potential n f :=
        potential_seekApplied f n hseek
      have hlp : loopPotential n (seekApplied f) (seekApplied f)._data =
          potential n f := by rw [← hpe]; rfl
      have hrem : remBytes { r.2 with _data := r.1.drop n } = remBytes r.2 := by
        rw [remBytes, remBytes, appliedPos, appliedPos]
      have hpot2 : potential n { r.2 with _data := r.1.drop n } + n =
          loopPotential n r.2 r.1 := by
        rw [potential, loopPotential, loopPotential, hrem]
        have hd : ({ r.2 with _data := r.1.drop n } : FFmpegFile)._data = r.1.drop n := rfl
        rw [hd]
        have hdl : (r.1.drop n).length = r.1.length - n := by
          rw [List.length_drop]
        generalize (({ r.2 with _data := r.1.drop n } : FFmpegFile)._loops + 1 -
          (({ r.2 with _data := r.1.drop n } : FFmpegFile)._loop_count : Int)).toNat *
          (sumBytes ({ r.2 with _data := r.1.drop n } : FFmpegFile).frames + n) = P
        omega
      rw [hlp] at e4
      dsimp only at hpot2 ⊢
      omega

/-- Under the finite-budget invariant the potential is positive. -/
theorem potential_pos (n : Nat) (hn : 0 < n) (f : FFmpegFile)
    (hlc : (f._loop_count : Int) ≤ f._loops) : 0 < potential n f := by
  rw [potential, loopPotential]
  have hT : 0 < (f._loops + 1 - (f._loop_count : Int)).toNat := by omega
  have hB : 0 < sumBytes f.frames + n := by omega
  have hmul := Nat.mul_pos hT hB
  generalize hP : (f._loops + 1 - (f._loop_count : Int)).toNat *
    (sumBytes f.frames + n) = P at hmul ⊢
  omega

/-- A playing, never-paused worker with an error-free device and a finite
loop budget terminates normally within `potential + 2` iterations, with the
wrap counter equal to the loop budget and `playing` set to false. -/
theorem finiteRun_terminates (n : Nat) (hn : 0 < n) :
    ∀ k (s : WorkerState), FiniteRunInv n s → potential n s.fileobj ≤ k →
      (runFeed (k + 2) s).isFinished = true ∧
      ((runFeed (k + 2) s).state.fileobj._loop_count : Int) = s.fileobj._loops ∧
      (runFeed (k + 2) s).state.msg.playing = false := by
  intro k
  induction k with
  | zero =>
    intro s inv hpot
    exact absurd hpot (by have := potential_pos n hn s.fileobj inv.hlc; omega)
  | succ k ih =>
    intro s inv hpot
    obtain ⟨hplay, hpause, hqueue, hok, hbs, hbuf, hL, hlc, hseek⟩ := inv
    have hbe : s.buf.isEmpty = false := by
      cases hb : s.buf with
      | nil => exact absurd hb hbuf
      | cons a l => rfl
    have hc : loopCond s = true := by simp [loopCond, hplay, hbe]
    have hread : s.fileobj.readline s.device.buffer_size =
        ((s.fileobj.read n).1, (s.fileobj.read n).2) := by
      rw [FFmpegFile.readline, hbs]
    have hstep : feedStep s =
        some (fedState s (s.fileobj.read n).1 (s.fileobj.read n).2) := by
      rw [feedStep, feedAudio_unpaused s _ _ hpause hread (hok _), Option.some_bind,
        pollCommand]
      have hq2 : (fedState s (s.fileobj.read n).1 (s.fileobj.read n).2).queue = [] :=
        hqueue
      rw [hq2]
    obtain ⟨g1, g2, g4⟩ := read_spec s.fileobj n hn hL hlc hseek
    rw [show k + 1 + 2 = (k + 2) + 1 from rfl, runFeed, if_pos hc, hstep]
    dsimp only
    rcases g4 with ⟨e1, e2, e3⟩ | ⟨e1, e2, e3, e4⟩
    · have hcond1 :
          ¬(loopCond (fedState s (s.fileobj.read n).1 (s.fileobj.read n).2) = true) := by
        simp [loopCond, fedState, e1, hpause]
      rw [show k + 2 = (k + 1) + 1 from rfl, runFeed, if_neg hcond1]
      refine ⟨rfl, ?_, rfl⟩
      show ((s.fileobj.read n).2._loop_count : Int) = s.fileobj._loops
      rw [e2]
      omega
    · have inv2 : FiniteRunInv n (fedState s (s.fileobj.read n).1 (s.fileobj.read n).2) := by
        refine ⟨hplay, hpause, hqueue, fun i => hok i, hbs, ?_, ?_, ?_, ?_⟩
        · show (s.fileobj.read n).1 ≠ []
          exact List.length_pos.mp (by omega)
        · show 0 ≤ (s.fileobj.read n).2._loops
          rw [g2]; exact hL
        · show ((s.fileobj.read n).2._loop_count : Int) ≤ (s.fileobj.read n).2._loops
          rw [g2]; exact e2
        · exact e3
      have ihr := ih (fedState s (s.fileobj.read n).1 (s.fileobj.read n).2) inv2
        (by
          show potential n (s.fileobj.read n).2 ≤ k
          omega)
      refine ⟨ihr.1, ?_, ihr.2.2⟩
      have := ihr.2.1
      rw [show (fedState s (s.fileobj.read n).1 (s.fileobj.read n).2).fileobj =
        (s.fileobj.read n).2 from rfl, g2] at this
      exact this

/-- With an infinite budget the frame loop always returns a full buffer:
the end-of-stream branch can only wrap (pad to `size`, count, seek), never
stop. -/
theorem readLoopF_inf (n : Nat) (hn : 0 < n) :
    ∀ fuel (f : FFmpegFile) (data : List Nat),
      f.frames.length - f.framePos < fuel → f._loops = -1 →
      n ≤ (readLoopF fuel f n data).1.length ∧
      (readLoopF fuel f n data).2._loops = -1 := by
  intro fuel
  induction fuel with
  | zero => intro f data h; omega
  | succ fuel ih =>
    intro f data hfuel hinf
    rw [readLoopF]
    by_cases hcond : data = [] ∨ data.length < n
    · rw [if_pos hcond]
      cases hdrop : f.frames.drop f.framePos with
      | nil =>
        dsimp only
        rw [if_neg (fun h => h.1 hinf)]
        constructor
        · show n ≤ (data ++ zeros (n - data.length)).length
          simp only [List.length_append, zeros, List.length_replicate]
          omega
        · exact hinf
      | cons fr rest =>
        dsimp only
        have hpos : f.framePos < f.frames.length := by
          by_contra hge
          rw [List.drop_eq_nil_of_le (by omega)] at hdrop
          cases hdrop
        exact ih { f with framePos := f.framePos + 1 } (data ++ fr)
          (by simp; omega) hinf
    · rw [if_neg hcond]
      push_neg at hcond
      exact ⟨by show n ≤ data.length; omega, hinf⟩

/-- With an infinite budget a `read` always returns exactly `n` bytes. -/
theorem read_inf (f : FFmpegFile) (n : Nat) (hn : 0 < n)
    (hinf : f._loops = -1) :
    (f.read n).1.length = n ∧ (f.read n).2._loops = -1 := by
  have hsa : (seekApplied f)._loops = f._loops := by
    rw [seekApplied]; split <;> rfl
  have h := readLoopF_inf n hn
    ((seekApplied f).frames.length - (seekApplied f).framePos + 1)
    (seekApplied f) ((seekApplied f)._data) (by omega) (by rw [hsa]; exact hinf)
  rw [FFmpegFile.read]
  dsimp only
  exact ⟨by rw [List.length_take]; omega, h.2⟩

/-- A playing, never-paused worker with an error-free device and an infinite
loop budget never leaves the feed loop: every fuel bound runs out with the
loop still going. -/
theorem infRun_never_exits (n : Nat) (hn : 0 < n) :
    ∀ fuel (s : WorkerState), InfRunInv n s →
      (runFeed fuel s).isFuelOut = true := by
  intro fuel
  induction fuel with
  | zero => intro s _; rfl
  | succ fuel ih =>
    intro s inv
    obtain ⟨hplay, hpause, hqueue, hok, hbs, hbuf, hinf⟩ := inv
    have hbe : s.buf.isEmpty = false := by
      cases hb : s.buf with
      | nil => exact absurd hb hbuf
      | cons a l => rfl
    have hc : loopCond s = true := by simp [loopCond, hplay, hbe]
    have hread : s.fileobj.readline s.device.buffer_size =
        ((s.fileobj.read n).1, (s.fileobj.read n).2) := by
      rw [FFmpegFile.readline, hbs]
    have hstep : feedStep s =
        some (fedState s (s.fileobj.read n).1 (s.fileobj.read n).2) := by
      rw [feedStep, feedAudio_unpaused s _ _ hpause hread (hok _), Option.some_bind,
        pollCommand]
      have hq2 : (fedState s (s.fileobj.read n).1 (s.fileobj.read n).2).queue = [] :=
        hqueue
      rw [hq2]
    obtain ⟨hlen, hloops⟩ := read_inf s.fileobj n hn hinf
    rw [runFeed, if_pos hc, hstep]
    refine ih _ ⟨hplay, hpause, hqueue, fun i => hok i, hbs, ?_, hloops⟩
    show (s.fileobj.read n).1 ≠ []
    exact List.length_pos.mp (by omega)

/-- C3: for every finite stream, nominal buffer size `n > 0`, and loop
budget `L ≥ 0`, a worker that is never paused or stopped terminates
normally having performed exactly `L+1` passes over the stream — the
decoder wrap counter at exit equals `L`, one wrap per extra pass — and sets
`playing` to false; for budget `−1` the worker never leaves the feed loop on
end of stream alone: every fuel bound expires with the loop still running,
an explicit stop being the only exit. -/
theorem c3_loop_budget (frames : List (List Nat)) (n : Nat) (hn : 0 < n) :
    (∀ L : Int, 0 ≤ L →
      (runFeed (potential n (mkFile frames L) + 2) (initWorker frames L n)).isFinished
        = true ∧
      ((runFeed (potential n (mkFile frames L) + 2)
          (initWorker frames L n)).state.fileobj._loop_count : Int) = L ∧
      (runFeed (potential n (mkFile frames L) + 2)
          (initWorker frames L n)).state.msg.playing = false) ∧
    (∀ fuel, (runFeed fuel (initWorker frames (-1) n)).isFuelOut = true) := by
  constructor
  · intro L hL
    have inv : FiniteRunInv n (initWorker frames L n) := by
      refine ⟨rfl, rfl, rfl, fun i => rfl, rfl, ?_, hL, by exact_mod_cast hL, Or.inl rfl⟩
      show zeros n ≠ []
      exact List.length_pos.mp (by simp [zeros]; omega)
    exact finiteRun_terminates n hn (potential n (mkFile frames L))
      (initWorker frames L n) inv (le_refl _)
  · intro fuel
    refine infRun_never_exits n hn fuel _ ⟨rfl, rfl, rfl, fun i => rfl, rfl, ?_, rfl⟩
    show zeros n ≠ []
    exact List.length_pos.mp (by simp [zeros]; omega)

theorem c3_loop_budget_witness :
    (runFeed (potential 2 (mkFile [[1, 2], [3]] 1) + 2)
        (initWorker [[1, 2], [3]] 1 2)).isFinished = true ∧
    ((runFeed (potential 2 (mkFile [[1, 2], [3]] 1) + 2)
        (initWorker [[1, 2], [3]] 1 2)).state.fileobj._loop_count : Int) = 1 ∧
    (runFeed 5 (initWorker [[1, 2], [3]] (-1) 2)).isFuelOut = true :=
  ⟨((c3_loop_budget [[1, 2], [3]] 2 (by decide)).1 1 (by decide)).1,
   ((c3_loop_budget [[1, 2], [3]] 2 (by decide)).1 1 (by decide)).2.1,
   (c3_loop_budget [[1, 2], [3]] 2 (by decide)).2 5⟩

/-! ### C9: scenario B, loops = 2 on a one-buffer stream -/

/-- C9 (amended): with `loops = 2` on a one-buffer stream run to
completion, the worker performs 3 content passes — the decoder wrap counter
ends at 2 — but writes 6 buffers in total: the content buffer three times,
interleaved with a zero buffer produced at each of the two wraps, plus one
final zero buffer on the empty end-of-stream read; after completion
`playing` is false, so the guarded `loop_count` getter prints the
not-playing diagnostic and returns None rather than 2. -/
theorem c9_scenario_b :
    (runFeed 10 (initWorker [[1, 2, 3, 4]] 2 4)).isFinished = true ∧
    (runFeed 10 (initWorker [[1, 2, 3, 4]] 2 4)).state.device.written =
      [[1, 2, 3, 4], zeros 4, [1, 2, 3, 4], zeros 4, [1, 2, 3, 4], zeros 4] ∧
    (runFeed 10 (initWorker [[1, 2, 3, 4]] 2 4)).state.fileobj._loop_count = 2 ∧
    (runFeed 10 (initWorker [[1, 2, 3, 4]] 2 4)).state.msg.playing = false ∧
    AudioPlayer.loop_count_get stoppedPlayer 2 =
      .ok (none, stoppedPlayer, ["track.pcm is not playing."]) := by
  refine ⟨rfl, by decide, by decide, rfl, rfl⟩

/-- C9 counterexample: the completed worker has written 6 buffers, not 3,
and the loop_count getter called after completion returns None (diagnostic
path), not 2. -/
theorem c9_counterexample :
    (runFeed 10 (initWorker [[1, 2, 3, 4]] 2 4)).state.device.written.length = 6 ∧
    ¬ (runFeed 10 (initWorker [[1, 2, 3, 4]] 2 4)).state.device.written.length = 3 ∧
    callValue (AudioPlayer.loop_count_get stoppedPlayer 2) = none ∧
    ¬ callValue (AudioPlayer.loop_count_get stoppedPlayer 2) = some 2 := by
  refine ⟨by decide, by decide, rfl, by decide⟩

end Musio
